import Mathlib

/-!
Shallow embedding of the supplier-email automation pipeline
(`src/email_processor.py`, `src/outlook_handler.py`, `src/pdf_generator.py`,
`src/utils/sanitize.py`) and proofs about its specification claims.

Strings are modelled as `List Char` (`Str`).  Provider round-trips (Outlook
COM calls, PDF engine, filesystem writes) are modelled by explicit outcome
flags in an environment record; the cooperative cancellation flag
`_should_stop` is modelled as a monotone poll schedule `stopAt : Option Nat`
(the flag reads `true` from the `stopAt`-th poll onwards, matching a single
`stop()` request).  Each externally visible provider mutation or call is
recorded in an ordered event trace.
-/

namespace EmailAutomation

abbrev Str := List Char

/-! ## utils/sanitize.py -/

/-- `FORBIDDEN_CHARS` from `src/utils/sanitize.py` (characters forbidden in
Windows file names). -/
def FORBIDDEN_CHARS : List Char := ['<', '>', ':', '"', '/', '\\', '|', '?', '*']

/-- Python `str.replace(old, new)` specialised to a one-character `old`,
as used by the `for char in FORBIDDEN_CHARS: text.replace(char, replacement)`
loop of `sanitize_text`. -/
def replaceChar : Str → Char → Str → Str
  | [], _, _ => []
  | c :: rest, old, new =>
    (if c = old then new else [c]) ++ replaceChar rest old new

/-- Unicode general category Cc (control characters): U+0000–U+001F and
U+007F–U+009F.  This is the set removed by
`unicodedata.category(char) != 'Cc'` in `sanitize_text`. -/
def isCc (c : Char) : Bool :=
  c.toNat ≤ 0x1f || (0x7f ≤ c.toNat && c.toNat ≤ 0x9f)

/-- The whitespace class matched by Python's `re` pattern `\s` on `str`
(the characters for which `Py_UNICODE_ISSPACE` holds). -/
def isPySpace (c : Char) : Bool :=
  let n := c.toNat
  (0x9 ≤ n && n ≤ 0xd) || (0x1c ≤ n && n ≤ 0x20) || n == 0x85 || n == 0xa0 ||
    n == 0x1680 || (0x2000 ≤ n && n ≤ 0x200a) || n == 0x2028 || n == 0x2029 ||
    n == 0x202f || n == 0x205f || n == 0x3000

/-- Helper for `re.sub(r'\s+', ' ', text)`: replaces every maximal run of
whitespace by a single `' '`.  The boolean argument records whether the
previous character belonged to a whitespace run. -/
def collapseAux : Str → Bool → Str
  | [], _ => []
  | c :: rest, prevWS =>
    if isPySpace c then
      if prevWS then collapseAux rest true
      else ' ' :: collapseAux rest true
    else c :: collapseAux rest false

/-- `re.sub(r'\s+', ' ', text)` of `sanitize_text`. -/
def collapseWS (s : Str) : Str := collapseAux s false

/-- The character set of Python `text.strip('. ')`. -/
def isDotSpace (c : Char) : Bool := c == '.' || c == ' '

/-- Left part of `text.strip('. ')`. -/
def lstrip (s : Str) : Str := s.dropWhile isDotSpace

/-- Right part of `text.strip('. ')`. -/
def rstrip (s : Str) : Str := (s.reverse.dropWhile isDotSpace).reverse

/-- Python `text.strip('. ')`: drop leading and trailing dots and spaces. -/
def stripDotSpace (s : Str) : Str := rstrip (lstrip s)

/-- The control-character removal step of `sanitize_text`. -/
def removeCc (s : Str) : Str := s.filter (fun c => !isCc c)

/-- Adjacency relation for whitespace-collapsed text: two neighbouring
characters are never both whitespace. -/
def NAdjWS (a b : Char) : Prop := ¬(isPySpace a = true ∧ isPySpace b = true)

/-- `sanitize_text(text, replacement)` from `src/utils/sanitize.py`
(the source's default for `replacement` is `"_"`):
replace forbidden characters, drop control characters, collapse whitespace
runs to a single space, strip leading/trailing dots and spaces.
The empty string is returned unchanged. -/
def sanitize_text (text replacement : Str) : Str :=
  if text = [] then []
  else
    stripDotSpace (collapseWS (removeCc
      (FORBIDDEN_CHARS.foldl (fun acc ch => replaceChar acc ch replacement) text)))

/-- Python `str.strip()` (no argument), used by `validate_keywords`:
strips Unicode whitespace from both ends. -/
def pyStrip (s : Str) : Str :=
  ((s.dropWhile isPySpace).reverse.dropWhile isPySpace).reverse

/-- Splitting on `','` as done by `keywords_str.split(',')`. -/
def splitOnCommaAux : Str → Str → List Str
  | [], acc => [acc.reverse]
  | c :: rest, acc =>
    if c = ',' then acc.reverse :: splitOnCommaAux rest []
    else splitOnCommaAux rest (c :: acc)

/-- `validate_keywords(keywords_str)` from `src/utils/sanitize.py`:
empty input gives the empty list, otherwise split on commas, trim each
part, and drop the empty parts. -/
def validate_keywords (keywords_str : Str) : List Str :=
  if keywords_str = [] then []
  else ((splitOnCommaAux keywords_str []).map pyStrip).filter (fun kw => !kw.isEmpty)

/-! ## outlook_handler.py — keyword matching (`OutlookHandler.filter_emails`) -/

/-- Python `str.lower()` restricted to the ASCII range handled by
`Char.toLower`; every subject/keyword in the claims is ASCII. -/
def lowerStr (s : Str) : Str := s.map Char.toLower

/-- Python's substring test `needle in hay` for strings. -/
def containsSub : Str → Str → Bool
  | [], needle => needle.isEmpty
  | c :: rest, needle => needle.isPrefixOf (c :: rest) || containsSub rest needle

/-- The keyword match rule of `filter_emails`
(`any(kw.lower() in subject_lower for kw in keywords)`). -/
def subjectMatches (keywords : List Str) (subject : Str) : Bool :=
  keywords.any (fun kw => containsSub (lowerStr subject) (lowerStr kw))

/-- A mail item as scanned by `filter_emails`: its `Class` COM property,
its unread flag, its subject, and whether reading its properties raises
`com_error` (such an item is skipped by the `except com_error: continue`). -/
structure MailItem where
  itemClass : Nat
  unRead : Bool
  subject : Str
  readFailure : Bool
deriving DecidableEq

/-- The per-item selection of `OutlookHandler.filter_emails`
(`src/outlook_handler.py`, lines 380–399), applied to the folder's item
sequence (already sorted newest-first by the provider). -/
def filter_emails (items : List MailItem) (keywords : List Str) (unread_only : Bool) :
    List MailItem :=
  items.filter (fun it =>
    !it.readFailure && it.itemClass == 43 && (!unread_only || it.unRead) &&
      subjectMatches keywords it.subject)

/-! ## outlook_handler.py — exceptions and `EmailItem` mutators -/

/-- The exceptions that can travel through the processing pipeline:
`OutlookError`, `PDFGeneratorError`, and the `TypeError` produced by the
`get_matching_emails → filter_emails` keyword-argument mismatch. -/
inductive PyExn
  | outlookError (msg : Str)
  | pdfGeneratorError (msg : Str)
  | typeError
deriving DecidableEq

/-- `EmailItem.set_category` (`src/outlook_handler.py`, lines 158–166):
a provider (`com_error`) failure is re-raised as `OutlookError`. -/
def set_category (providerFails : Bool) : Except PyExn Unit :=
  if providerFails then
    .error (.outlookError ("Impossible de définir la catégorie".data))
  else .ok ()

/-- `EmailItem.mark_as_read` (`src/outlook_handler.py`, lines 168–174):
the `com_error` is caught and only logged — the method always returns
normally, whatever the provider outcome. -/
def mark_as_read (_providerFails : Bool) : Except PyExn Unit := .ok ()

/-- `EmailItem.move_to` (`src/outlook_handler.py`, lines 176–192):
the `com_error` is caught and the method returns `False`; it never raises. -/
def move_to (providerFails : Bool) : Except PyExn Bool := .ok (!providerFails)

/-! ## email_processor.py — data model -/

/-- `ProcessingStatus` from `src/email_processor.py`. -/
inductive ProcessingStatus
  | pending
  | in_progress
  | success
  | failed
  | skipped
deriving DecidableEq

/-- `ProcessingResult` from `src/email_processor.py` (the `to_dict`
serialisation is omitted). -/
structure ProcessingResult where
  email_subject : Str
  status : ProcessingStatus
  pdf_path : Option Str
  error_message : Option Str
deriving DecidableEq

/-- `ProcessingStats` from `src/email_processor.py`. -/
structure ProcessingStats where
  total : Nat
  processed : Nat
  success : Nat
  failed : Nat
  skipped : Nat
deriving DecidableEq

/-- The freshly reset statistics (`ProcessingStats()`). -/
def ProcessingStats.init : ProcessingStats :=
  { total := 0, processed := 0, success := 0, failed := 0, skipped := 0 }

/-- The externally visible provider calls made during a run, in order. -/
inductive Event
  | connect
  | ensureCategory (name : Str)
  | resolveFolder
  | search
  | saveAttachments (subject : Str)
  | renderPdf (subject : Str)
  | setCategory (subject : Str) (name : Str)
  | markRead (subject : Str)
  | move (subject : Str)
deriving DecidableEq

/-- Whether an event belongs to the per-message work of the loop
(as opposed to the setup phase of `process_emails`). -/
def isPerMessageEvent : Event → Bool
  | .saveAttachments _ => true
  | .renderPdf _ => true
  | .setCategory _ _ => true
  | .markRead _ => true
  | .move _ => true
  | _ => false

/-- One matching email together with the provider outcomes of the
operations `_process_single_email` will attempt on it:
`pdfFails` — `generate_email_pdf` raises `PDFGeneratorError`;
`setCategoryFails` — the success-category `set_category` raises
`OutlookError`; `markReadFails` / `moveFails` — provider failures that
`mark_as_read` / `move_to` swallow; `errorCategoryFails` — the best-effort
error-category application fails (swallowed by `except: pass`).
`pdfNamed` is the artifact path `generate_email_pdf` returns on success. -/
structure Email where
  subject : Str
  hasAttachments : Bool
  pdfNamed : Str
  pdfFails : Bool
  setCategoryFails : Bool
  markReadFails : Bool
  moveFails : Bool
  errorCategoryFails : Bool
deriving DecidableEq

/-- The fixed error category of `process_emails`
(`error_category = "Erreur traitement"`). -/
def error_category : Str := "Erreur traitement".data

/-- The cooperative cancellation flag `_should_stop`, polled at
checkpoints.  `stopAt = some k` means `stop()` was requested between the
`k-1`-th and `k`-th poll, so from the `k`-th poll onwards the flag reads
`true` (the flag is only ever set, never cleared, during a run). -/
def checkStop (stopAt : Option Nat) (poll : Nat) : Bool :=
  match stopAt with
  | none => false
  | some k => decide (k ≤ poll)

/-- The mutable state of a run: the statistics, the ordered result log,
the event trace, and the mailbox's master category list. -/
structure RunState where
  stats : ProcessingStats
  results : List ProcessingResult
  events : List Event
  cats : List Str
deriving DecidableEq

/-! ## email_processor.py — `_process_single_email` -/

/-- The message shown by the entry-checkpoint SKIPPED result. -/
def interruptedMsg : Str := "Traitement interrompu par l'utilisateur".data

/-- Error message recorded when `generate_email_pdf` raises. -/
def pdfFailMsg : Str := "Erreur génération PDF".data

/-- Error message recorded when an `OutlookError` escapes a step. -/
def outlookFailMsg : Str := "Erreur Outlook".data

/-- Steps 4–10 of `_process_single_email` (after the success category has
been applied, `src/email_processor.py` lines 408–420): mark as read
(never raises), poll cancellation, then — last — move the message when a
target folder is resolved.  `move_to`'s boolean result is ignored by the
caller, so the message still ends `SUCCESS` when the move fails. -/
def processAfterCategory (e : Email) (hasTarget : Bool) (stopAt : Option Nat)
    (evs : List Event) (p : Nat) : ProcessingResult × List Event × Nat :=
  let _ := mark_as_read e.markReadFails
  let evs3 := evs ++ [Event.markRead e.subject]
  if checkStop stopAt p then
    ({ email_subject := e.subject, status := .skipped, pdf_path := some e.pdfNamed,
       error_message := none }, evs3, p + 1)
  else if hasTarget then
    let _moved := move_to e.moveFails
    ({ email_subject := e.subject, status := .success, pdf_path := some e.pdfNamed,
       error_message := none }, evs3 ++ [Event.move e.subject], p + 1)
  else
    ({ email_subject := e.subject, status := .success, pdf_path := some e.pdfNamed,
       error_message := none }, evs3, p + 1)

/-- Steps 2–10 of `_process_single_email` after the attachment step
(`src/email_processor.py` lines 383–420): poll cancellation, render the
primary PDF, apply the success category (when one is configured), then
continue with `processAfterCategory`.  A `PDFGeneratorError` or an
`OutlookError` turns the message `FAILED` and triggers the best-effort
error-category application of the matching `except` handler. -/
def processAfterAttachments (e : Email) (hasTarget : Bool)
    (category : Str) (stopAt : Option Nat) (evs : List Event) (p : Nat) :
    ProcessingResult × List Event × Nat :=
  if checkStop stopAt p then
    ({ email_subject := e.subject, status := .skipped, pdf_path := none,
       error_message := none }, evs, p + 1)
  else
    let p2 := p + 1
    let evs2 := evs ++ [Event.renderPdf e.subject]
    if e.pdfFails then
      ({ email_subject := e.subject, status := .failed, pdf_path := none,
         error_message := some pdfFailMsg },
       evs2 ++ [Event.setCategory e.subject error_category], p2)
    else if category = [] then
      processAfterCategory e hasTarget stopAt evs2 p2
    else
      match set_category e.setCategoryFails with
      | .error _ =>
        ({ email_subject := e.subject, status := .failed, pdf_path := some e.pdfNamed,
           error_message := some outlookFailMsg },
         evs2 ++ [Event.setCategory e.subject category,
                  Event.setCategory e.subject error_category], p2)
      | .ok _ =>
        processAfterCategory e hasTarget stopAt
          (evs2 ++ [Event.setCategory e.subject category]) p2

/-- `_process_single_email` (`src/email_processor.py`, lines 342–453):
the per-message sequence.  Returns the result, the events attempted for
this message in order, and the advanced poll counter. -/
def processSingleEmail (e : Email) (hasTarget : Bool) (category : Str)
    (stopAt : Option Nat) (p : Nat) : ProcessingResult × List Event × Nat :=
  if checkStop stopAt p then
    ({ email_subject := e.subject, status := .skipped, pdf_path := none,
       error_message := some interruptedMsg }, [], p + 1)
  else
    let p1 := p + 1
    if e.hasAttachments then
      if checkStop stopAt p1 then
        ({ email_subject := e.subject, status := .skipped, pdf_path := none,
           error_message := none }, [], p1 + 1)
      else
        processAfterAttachments e hasTarget category stopAt
          [Event.saveAttachments e.subject] (p1 + 1)
    else
      processAfterAttachments e hasTarget category stopAt [] p1

/-! ## email_processor.py — `process_emails` -/

/-- The statistics update of the processing loop
(`src/email_processor.py`, lines 312–318). -/
def updateStats (stats : ProcessingStats) (res : ProcessingResult) : ProcessingStats :=
  let s := { stats with processed := stats.processed + 1 }
  match res.status with
  | .success => { s with success := s.success + 1 }
  | .failed => { s with failed := s.failed + 1 }
  | _ => { s with skipped := s.skipped + 1 }

/-- The per-email loop of `process_emails`
(`src/email_processor.py`, lines 300–318): poll the cancellation flag
before each message (breaking the loop if set), process the message,
append its result and update the statistics. -/
def processLoop (hasTarget : Bool) (category : Str) (stopAt : Option Nat) :
    List Email → RunState → Nat → RunState × Nat
  | [], st, p => (st, p)
  | e :: rest, st, p =>
    if checkStop stopAt p then (st, p + 1)
    else
      let r := processSingleEmail e hasTarget category stopAt (p + 1)
      let st' : RunState :=
        { st with stats := updateStats st.stats r.1,
                  results := st.results ++ [r.1],
                  events := st.events ++ r.2.1 }
      processLoop hasTarget category stopAt rest st' r.2.2

/-- Modelled from the spec: `ensureCategory(name, color)` — "creates a
named tag if absent; called once per run per distinct tag before any
message mutation".  `OutlookHandler.ensure_category_exists` is called by
`process_emails` but has no definition under `src/`; only its callers
exist there. -/
def ensure_category_exists (cats : List Str) (name _color : Str) : List Str :=
  if name ∈ cats then cats else cats ++ [name]

/-- The environment of one `process_emails` run: the prior connection
state, the outcome of each setup round-trip, the raw inputs, the messages
the mailbox holds that match the criteria, and the cancellation schedule.
`ensureCategoryOk` tells, per tag name, whether the (spec-modelled)
`ensure_category_exists` call succeeds.  `emails` is consumed only by the
spec-modelled search (`processSetupSpec`); the staged search call itself
never returns (see `processSetup`). -/
structure Env where
  alreadyConnected : Bool
  connectOk : Bool
  ensureCategoryOk : Str → Bool
  initialCats : List Str
  category : Str
  keywordsStr : Str
  targetFolderPath : Str
  folderOk : Bool
  emails : List Email
  stopAt : Option Nat

/-- How the `try:` body of `process_emails` leaves the setup phase
(everything before the per-email loop): an early `return self.stats`, an
exception, or entry into the loop. -/
inductive SetupOutcome
  | earlyReturn (st : RunState)
  | raised (e : PyExn) (st : RunState)
  | proceed (st : RunState) (hasTarget : Bool) (emails : List Email)
deriving DecidableEq

/-- Where the setup phase stands when it reaches the search call:
either it already ended (early return or exception), or it is about to
invoke the search, carrying the state so far and the resolved-folder
flag. -/
inductive PreSearch
  | stopped (out : SetupOutcome)
  | atSearch (st : RunState) (hasTarget : Bool)
deriving DecidableEq

/-- The setup phase of `process_emails` up to and including the moment
the search is invoked (`src/email_processor.py`, lines 256–288): connect
(raising `OutlookError` into the `try` body when it fails), ensure the
success and error categories, validate keywords (empty set → early
return), resolve the target folder (failure downgrades to "no move"),
then reach the `get_matching_emails` call. -/
def processSetupToSearch (env : Env) : PreSearch :=
  let st0 : RunState :=
    { stats := ProcessingStats.init, results := [], events := [],
      cats := env.initialCats }
  let connectEvs : List Event := if env.alreadyConnected then [] else [Event.connect]
  if !env.alreadyConnected && !env.connectOk then
    .stopped (.raised (.outlookError ("Impossible de se connecter à Outlook".data))
      { st0 with events := connectEvs })
  else
    let stC := { st0 with events := connectEvs }
    if env.category ≠ [] ∧ env.ensureCategoryOk env.category = false then
      .stopped (.raised (.outlookError ("Erreur création catégorie".data))
        { stC with events := stC.events ++ [Event.ensureCategory env.category] })
    else
      let stE1 :=
        if env.category = [] then stC
        else
          { stC with events := stC.events ++ [Event.ensureCategory env.category],
                     cats := ensure_category_exists stC.cats env.category ("green".data) }
      if env.ensureCategoryOk error_category = false then
        .stopped (.raised (.outlookError ("Erreur création catégorie".data))
          { stE1 with events := stE1.events ++ [Event.ensureCategory error_category] })
      else
        let stE2 :=
          { stE1 with events := stE1.events ++ [Event.ensureCategory error_category],
                      cats := ensure_category_exists stE1.cats error_category ("red".data) }
        if validate_keywords env.keywordsStr = [] then .stopped (.earlyReturn stE2)
        else
          let hasTarget := !env.targetFolderPath.isEmpty && env.folderOk
          let stF :=
            if env.targetFolderPath = [] then stE2
            else { stE2 with events := stE2.events ++ [Event.resolveFolder] }
          .atSearch { stF with events := stF.events ++ [Event.search] } hasTarget

/-- The setup phase of `process_emails` as staged under `src/`: the
search call `get_matching_emails` (`src/email_processor.py`, lines
196–199) passes `date_from`/`date_to` keyword arguments that
`filter_emails` (`src/outlook_handler.py`, lines 351–353) does not
accept, so the call raises `TypeError` unconditionally, before
`stats.total` is set; the per-email loop is unreachable. -/
def processSetup (env : Env) : SetupOutcome :=
  match processSetupToSearch env with
  | .stopped out => out
  | .atSearch st _ => .raised .typeError st

/-- Modelled from the spec: the search step —
"`search(mailboxName, keywords, unreadOnly, dateFrom/dateTo) -> ordered
sequence of Message`, newest-first".  The search `process_emails` invokes
(with the date bounds) has no implementation under `src/`: only its
caller exists there, and the staged `filter_emails` rejects the
`date_from`/`date_to` arguments the caller passes.  Here the search
returns the matching messages and the run continues as in
`src/email_processor.py` lines 290–297: set `stats.total`, return early
on zero matches, otherwise enter the loop. -/
def processSetupSpec (env : Env) : SetupOutcome :=
  match processSetupToSearch env with
  | .stopped out => out
  | .atSearch st hasTarget =>
    let stT := { st with stats := { st.stats with total := env.emails.length } }
    if env.emails.length = 0 then .earlyReturn stT
    else .proceed stT hasTarget env.emails

/-- `EmailProcessor.process_emails`
(`src/email_processor.py`, lines 225–340): run the setup phase, then the
per-email loop.  The whole `try` body sits inside `except Exception`,
which logs and falls through to the final `return self.stats` — so an
exception never propagates to the caller; it yields a normal return with
the statistics accumulated so far.  (With the staged search, the loop
arm of the match — the source's continuation after the search — is never
taken.) -/
def processEmails (env : Env) : Except PyExn RunState :=
  match processSetup env with
  | .earlyReturn st => .ok st
  | .raised _ st => .ok st
  | .proceed st hasTarget emails =>
    .ok (processLoop hasTarget env.category env.stopAt emails st 0).1

/-- The run state `process_emails` ends in (it always returns normally;
see `processEmails`). -/
def runStateOf (env : Env) : RunState :=
  match processSetup env with
  | .earlyReturn st => st
  | .raised _ st => st
  | .proceed st hasTarget emails =>
    (processLoop hasTarget env.category env.stopAt emails st 0).1

/-- The run state of `process_emails` with the spec-modelled search
(`processSetupSpec`) in place of the staged, always-raising one. -/
def runStateOfSpec (env : Env) : RunState :=
  match processSetupSpec env with
  | .earlyReturn st => st
  | .raised _ st => st
  | .proceed st hasTarget emails =>
    (processLoop hasTarget env.category env.stopAt emails st 0).1

/-! ## pdf_generator.py — `_merge_with_attachments` -/

/-- Python `email_pdf_path.replace('.pdf', '_complet.pdf')`
(`src/pdf_generator.py`, line 333): `str.replace` substitutes every
non-overlapping occurrence of `'.pdf'`, scanning left to right. -/
def replaceDotPdf (new : Str) : Str → Str
  | '.' :: 'p' :: 'd' :: 'f' :: rest => new ++ replaceDotPdf new rest
  | c :: rest => c :: replaceDotPdf new rest
  | [] => []

/-- For comparison with the spec's words: "Final merged artifact is
written to `{primary}_complet.pdf`", read as rewriting the `.pdf` ENDING
of the primary path into `_complet.pdf`. -/
def specMergedPath (s : Str) : Str :=
  if ("fdp.".data).isPrefixOf s.reverse then
    s.take (s.length - 4) ++ "_complet.pdf".data
  else s

/-- The externally visible outcome of one `_merge_with_attachments`
call: the returned path, the files it removed with `os.remove`, and the
target of the final-write attempt (`open(output_path, 'wb')`), when PyPDF2
is present. -/
structure MergeOutcome where
  path : Str
  removed : List Str
  writeTarget : Option Str
deriving DecidableEq

/-- `PDFGenerator._merge_with_attachments` (`src/pdf_generator.py`,
lines 259–352): without PyPDF2 the primary path is returned unchanged and
nothing is touched; otherwise the merged output path is computed with
`str.replace`, the final write goes to that path, and then either the
write succeeds — the per-attachment conversion temp files (`temp_files`,
produced by the dispatch loop of lines 286–331 and abstracted here as an
input) are removed and the merged path returned — or the write raises and
the `except` handler (lines 349–352) closes the merger and returns the
original primary path, removing nothing.  `os.remove(email_pdf_path)`
appears nowhere in the function: the primary artifact is never deleted by
it.  The dispatch loop itself only affects the merged file's content and
`temp_files`, never the returned path, and is not modelled further. -/
def mergeWithAttachments (hasPyPDF2 writeFails : Bool) (email_pdf_path : Str)
    (temp_files : List Str) : MergeOutcome :=
  if !hasPyPDF2 then { path := email_pdf_path, removed := [], writeTarget := none }
  else
    let output_path := replaceDotPdf ("_complet.pdf".data) email_pdf_path
    if writeFails then
      { path := email_pdf_path, removed := [], writeTarget := some output_path }
    else
      { path := output_path, removed := temp_files, writeTarget := some output_path }

/-! ## Concrete runs used by the scenario claims -/

/-- A matching email whose provider operations all succeed. -/
def eOK : Email :=
  { subject := "s".data, hasAttachments := false, pdfNamed := "p.pdf".data,
    pdfFails := false, setCategoryFails := false, markReadFails := false,
    moveFails := false, errorCategoryFails := false }

/-- Three matching messages; `stop()` is requested after message 1
completes and before message 2 begins (the 4th poll is the loop-head
check for message 2: polls 0–3 are the loop-head, entry, pre-render and
pre-move checks of message 1). -/
def envCancel : Env :=
  { alreadyConnected := false, connectOk := true,
    ensureCategoryOk := fun _ => true, initialCats := [],
    category := "OK".data, keywordsStr := "facture".data,
    targetFolderPath := "T".data, folderOk := true,
    emails := [eOK, eOK, eOK], stopAt := some 4 }

/-- A run whose initial connect fails. -/
def envConnectFail : Env :=
  { alreadyConnected := false, connectOk := false,
    ensureCategoryOk := fun _ => true, initialCats := [],
    category := "OK".data, keywordsStr := "facture".data,
    targetFolderPath := [], folderOk := true,
    emails := [], stopAt := none }

/-- Proof-bookkeeping predicate: what is known about the run state a
setup outcome carries (fresh statistics, empty result log, only
setup-phase events, and — when the loop is entered with a non-empty
success category — both category tags ensured). -/
def SetupInv (env : Env) : SetupOutcome → Prop
  | .earlyReturn st =>
      st.results = [] ∧ st.stats.processed = 0 ∧ st.stats.success = 0 ∧
      st.stats.failed = 0 ∧ st.stats.skipped = 0 ∧ st.stats.total = 0 ∧
      (∀ ev ∈ st.events, isPerMessageEvent ev = false)
  | .raised _ st =>
      st.results = [] ∧ st.stats.processed = 0 ∧ st.stats.success = 0 ∧
      st.stats.failed = 0 ∧ st.stats.skipped = 0 ∧ st.stats.total = 0 ∧
      (∀ ev ∈ st.events, isPerMessageEvent ev = false)
  | .proceed st _ ems =>
      st.results = [] ∧ st.stats.processed = 0 ∧ st.stats.success = 0 ∧
      st.stats.failed = 0 ∧ st.stats.skipped = 0 ∧ st.stats.total = ems.length ∧
      (∀ ev ∈ st.events, isPerMessageEvent ev = false) ∧
      ems = env.emails ∧
      (env.category ≠ [] →
        Event.ensureCategory env.category ∈ st.events ∧ env.category ∈ st.cats) ∧
      Event.ensureCategory error_category ∈ st.events ∧ error_category ∈ st.cats

/-- Proof-bookkeeping predicate: what is known about the state the setup
phase carries when it reaches (or fails to reach) the search call. -/
def PreSearchInv (env : Env) : PreSearch → Prop
  | .stopped out =>
      SetupInv env out ∧ ∀ st t ems, out ≠ SetupOutcome.proceed st t ems
  | .atSearch st _ =>
      st.results = [] ∧ st.stats.processed = 0 ∧ st.stats.success = 0 ∧
      st.stats.failed = 0 ∧ st.stats.skipped = 0 ∧ st.stats.total = 0 ∧
      (∀ ev ∈ st.events, isPerMessageEvent ev = false) ∧
      (env.category ≠ [] →
        Event.ensureCategory env.category ∈ st.events ∧ env.category ∈ st.cats) ∧
      Event.ensureCategory error_category ∈ st.events ∧ error_category ∈ st.cats

/-! ## Helper lemmas -/

theorem containsSub_iff (hay needle : Str) :
    containsSub hay needle = true ↔ needle <:+: hay := by
  induction hay with
  | nil => simp [containsSub, List.infix_nil, List.isEmpty_iff]
  | cons c rest ih =>
    simp [containsSub, List.infix_cons_iff, List.isPrefixOf_iff_prefix, ih,
      Bool.or_eq_true]

theorem updateStats_total (s : ProcessingStats) (r : ProcessingResult) :
    (updateStats s r).total = s.total := by
  cases hr : r.status <;> simp [updateStats, hr]

theorem updateStats_processed (s : ProcessingStats) (r : ProcessingResult) :
    (updateStats s r).processed = s.processed + 1 := by
  cases hr : r.status <;> simp [updateStats, hr]

theorem updateStats_sum (s : ProcessingStats) (r : ProcessingResult) :
    (updateStats s r).success + (updateStats s r).failed + (updateStats s r).skipped =
      s.success + s.failed + s.skipped + 1 := by
  cases hr : r.status <;> simp [updateStats, hr] <;> omega

theorem processLoop_spec (hasTarget : Bool) (category : Str) (stopAt : Option Nat) :
    ∀ (emails : List Email) (st : RunState) (p : Nat),
      ∃ (rs : List ProcessingResult) (evs : List Event),
        (processLoop hasTarget category stopAt emails st p).1.results = st.results ++ rs ∧
        (processLoop hasTarget category stopAt emails st p).1.events = st.events ++ evs ∧
        (processLoop hasTarget category stopAt emails st p).1.cats = st.cats ∧
        (processLoop hasTarget category stopAt emails st p).1.stats.total = st.stats.total ∧
        (processLoop hasTarget category stopAt emails st p).1.stats.processed
          = st.stats.processed + rs.length ∧
        ((processLoop hasTarget category stopAt emails st p).1.stats.success +
          (processLoop hasTarget category stopAt emails st p).1.stats.failed +
          (processLoop hasTarget category stopAt emails st p).1.stats.skipped
          = st.stats.success + st.stats.failed + st.stats.skipped + rs.length) ∧
        rs.length ≤ emails.length ∧
        (stopAt = none → rs.length = emails.length) := by
  intro emails
  induction emails with
  | nil =>
    intro st p
    refine ⟨[], [], ?_, ?_, ?_, ?_, ?_, ?_, ?_, ?_⟩ <;> simp [processLoop]
  | cons e rest ih =>
    intro st p
    by_cases hstop : checkStop stopAt p = true
    · have hnn : stopAt ≠ none := by
        intro hnone; rw [hnone] at hstop; simp [checkStop] at hstop
      refine ⟨[], [], ?_, ?_, ?_, ?_, ?_, ?_, ?_, ?_⟩ <;>
        simp [processLoop, hstop, hnn]
    · have hstep : processLoop hasTarget category stopAt (e :: rest) st p =
          processLoop hasTarget category stopAt rest
            { st with
              stats := updateStats st.stats
                (processSingleEmail e hasTarget category stopAt (p + 1)).1,
              results := st.results ++
                [(processSingleEmail e hasTarget category stopAt (p + 1)).1],
              events := st.events ++
                (processSingleEmail e hasTarget category stopAt (p + 1)).2.1 }
            (processSingleEmail e hasTarget category stopAt (p + 1)).2.2 := by
        simp [processLoop, hstop]
      obtain ⟨rs', evs', h1, h2, h3, h4, h5, h6, h7, h8⟩ :=
        ih ({ st with
              stats := updateStats st.stats
                (processSingleEmail e hasTarget category stopAt (p + 1)).1,
              results := st.results ++
                [(processSingleEmail e hasTarget category stopAt (p + 1)).1],
              events := st.events ++
                (processSingleEmail e hasTarget category stopAt (p + 1)).2.1 })
          (processSingleEmail e hasTarget category stopAt (p + 1)).2.2
      refine ⟨(processSingleEmail e hasTarget category stopAt (p + 1)).1 :: rs',
              (processSingleEmail e hasTarget category stopAt (p + 1)).2.1 ++ evs',
              ?_, ?_, ?_, ?_, ?_, ?_, ?_, ?_⟩ <;> (try rw [hstep])
      · rw [h1]; simp
      · rw [h2]; simp
      · rw [h3]
      · rw [h4]; simp [updateStats_total]
      · rw [h5]; simp [updateStats_processed]; omega
      · rw [h6]
        have hsum := updateStats_sum st.stats
          (processSingleEmail e hasTarget category stopAt (p + 1)).1
        simp only [List.length_cons]
        omega
      · simp only [List.length_cons]; omega
      · intro hnone
        simp only [List.length_cons, h8 hnone]

theorem processEmails_eq_ok (env : Env) : processEmails env = .ok (runStateOf env) := by
  unfold processEmails runStateOf
  cases processSetup env <;> rfl

theorem mem_ensure_self (cats : List Str) (n c : Str) :
    n ∈ ensure_category_exists cats n c := by
  by_cases h : n ∈ cats <;> simp [ensure_category_exists, h]

theorem mem_ensure_mono (cats : List Str) (n c x : Str) (hx : x ∈ cats) :
    x ∈ ensure_category_exists cats n c := by
  by_cases h : n ∈ cats <;> simp [ensure_category_exists, h, hx]

theorem processSetupToSearch_inv (env : Env) :
    PreSearchInv env (processSetupToSearch env) := by
  unfold processSetupToSearch
  repeat' split
  all_goals
    simp_all [PreSearchInv, SetupInv, ProcessingStats.init, isPerMessageEvent,
      error_category, mem_ensure_self, mem_ensure_mono]

theorem processSetup_inv (env : Env) : SetupInv env (processSetup env) := by
  have h := processSetupToSearch_inv env
  cases hps : processSetupToSearch env with
  | stopped out =>
    rw [hps] at h
    simp only [PreSearchInv] at h
    have he : processSetup env = out := by simp [processSetup, hps]
    rw [he]
    exact h.1
  | atSearch st t =>
    rw [hps] at h
    simp only [PreSearchInv] at h
    have he : processSetup env = .raised .typeError st := by simp [processSetup, hps]
    rw [he]
    simp only [SetupInv]
    exact ⟨h.1, h.2.1, h.2.2.1, h.2.2.2.1, h.2.2.2.2.1, h.2.2.2.2.2.1,
      h.2.2.2.2.2.2.1⟩

theorem processSetup_no_proceed (env : Env) (st : RunState) (t : Bool)
    (ems : List Email) : processSetup env ≠ .proceed st t ems := by
  have h := processSetupToSearch_inv env
  cases hps : processSetupToSearch env with
  | stopped out =>
    rw [hps] at h
    simp only [PreSearchInv] at h
    have he : processSetup env = out := by simp [processSetup, hps]
    rw [he]
    exact h.2 st t ems
  | atSearch st' t' =>
    have he : processSetup env = .raised .typeError st' := by simp [processSetup, hps]
    rw [he]
    simp

theorem processSetupSpec_inv (env : Env) : SetupInv env (processSetupSpec env) := by
  have h := processSetupToSearch_inv env
  cases hps : processSetupToSearch env with
  | stopped out =>
    rw [hps] at h
    simp only [PreSearchInv] at h
    have he : processSetupSpec env = out := by simp [processSetupSpec, hps]
    rw [he]
    exact h.1
  | atSearch st t =>
    rw [hps] at h
    simp only [PreSearchInv] at h
    obtain ⟨h1, h2, h3, h4, h5, h6, h7, h8, h9, h10⟩ := h
    by_cases hz : env.emails.length = 0
    · have he : processSetupSpec env =
          .earlyReturn { st with stats := { st.stats with total := env.emails.length } } := by
        simp [processSetupSpec, hps, hz]
      rw [he]
      exact ⟨h1, h2, h3, h4, h5, hz, h7⟩
    · have he : processSetupSpec env =
          .proceed { st with stats := { st.stats with total := env.emails.length } }
            t env.emails := by
        simp [processSetupSpec, hps, hz]
      rw [he]
      exact ⟨h1, h2, h3, h4, h5, rfl, h7, rfl, h8, h9, h10⟩

theorem runStateOf_characterization (env : Env) :
    ∃ rs : List ProcessingResult,
      (runStateOf env).results = rs ∧
      (runStateOf env).stats.processed = rs.length ∧
      ((runStateOf env).stats.success + (runStateOf env).stats.failed +
        (runStateOf env).stats.skipped = rs.length) ∧
      (runStateOf env).stats.processed ≤ (runStateOf env).stats.total ∧
      (env.stopAt = none → (runStateOf env).stats.total = rs.length) := by
  have hinv := processSetup_inv env
  cases hps : processSetup env with
  | earlyReturn st =>
    rw [hps] at hinv
    simp only [SetupInv] at hinv
    have he : runStateOf env = st := by simp [runStateOf, hps]
    rw [he]
    exact ⟨[], by simp [hinv.1, hinv.2.1, hinv.2.2.1, hinv.2.2.2.1, hinv.2.2.2.2.1,
      hinv.2.2.2.2.2.1]⟩
  | raised ex st =>
    rw [hps] at hinv
    simp only [SetupInv] at hinv
    have he : runStateOf env = st := by simp [runStateOf, hps]
    rw [he]
    exact ⟨[], by simp [hinv.1, hinv.2.1, hinv.2.2.1, hinv.2.2.2.1, hinv.2.2.2.2.1,
      hinv.2.2.2.2.2.1]⟩
  | proceed st t ems =>
    rw [hps] at hinv
    simp only [SetupInv] at hinv
    have he : runStateOf env = (processLoop t env.category env.stopAt ems st 0).1 := by
      simp [runStateOf, hps]
    rw [he]
    obtain ⟨h1, h2, h3, h4, h5, h6, _⟩ := hinv
    obtain ⟨rs, evs, g1, g2, g3, g4, g5, g6, g7, g8⟩ :=
      processLoop_spec t env.category env.stopAt ems st 0
    refine ⟨rs, ?_, ?_, ?_, ?_, ?_⟩
    · rw [g1, h1]; simp
    · rw [g5, h2]; simp
    · rw [g6, h3, h4, h5]; omega
    · rw [g5, g4, h2, h6]; omega
    · intro hnone
      rw [g4, h6, g8 hnone]

/-! ## Claim theorems -/

/-- C2 (counterexample): when the initial connect fails, `process_emails`
does NOT raise to the caller — the `OutlookError` raised inside the `try`
body is swallowed by the catch-all `except Exception` handler and the run
ends with a normal return carrying zero-valued statistics. -/
theorem connect_failure_returns_stats :
    processSetup envConnectFail =
      .raised (.outlookError ("Impossible de se connecter à Outlook".data))
        { stats := ProcessingStats.init, results := [], events := [Event.connect],
          cats := [] } ∧
    processEmails envConnectFail =
      .ok { stats := ProcessingStats.init, results := [], events := [Event.connect],
            cats := [] } := by
  exact ⟨by decide, rfl⟩

/-- C2 (amended): every run of `process_emails` — including one whose
initial connect fails — returns a well-formed (possibly zero-valued)
`ProcessingStats` object without raising to the caller: no condition
raises to the caller, because the catch-all handler swallows even the
connect failure. -/
theorem process_emails_never_raises (env : Env) :
    processEmails env = .ok (runStateOf env) ∧
    ((runStateOf env).stats.success + (runStateOf env).stats.failed +
      (runStateOf env).stats.skipped = (runStateOf env).stats.processed) ∧
    (runStateOf env).stats.processed = (runStateOf env).results.length ∧
    (runStateOf env).stats.processed ≤ (runStateOf env).stats.total := by
  obtain ⟨rs, h1, h2, h3, h4, _⟩ := runStateOf_characterization env
  exact ⟨processEmails_eq_ok env, by rw [h3, h2], by rw [h1, h2], h4⟩

/-- C4 (code_bug): the claimed scenario — 3 matching messages, `stop()`
requested after message 1 — cannot be realized by the staged code: the
search call raises `TypeError` (keyword-argument mismatch between
`get_matching_emails` and `filter_emails`) before `stats.total` is set,
the catch-all handler swallows it, and the run returns `total = 0` with an
empty result log.  The per-email loop the claim describes does implement
the claimed behaviour: under the spec-modelled search the same run ends
with exactly 1 result entry, `stats.total = 3` and `stats.processed = 1`. -/
theorem cancellation_scenario_unreachable :
    processSetup envCancel = .raised PyExn.typeError (runStateOf envCancel) ∧
    (runStateOf envCancel).stats.total = 0 ∧
    (runStateOf envCancel).results = [] ∧
    (runStateOf envCancel).stats.processed = 0 ∧
    (runStateOfSpec envCancel).results.length = 1 ∧
    (runStateOfSpec envCancel).stats.total = 3 ∧
    (runStateOfSpec envCancel).stats.processed = 1 := by decide

/-- C3: on the staged code, `stats.total = len(results)` holds at the end
of every run of `process_emails`, and `stats.processed ≤ stats.total`
holds at every point — trivially so, because every run aborts at the
search step (the `TypeError` from the `filter_emails` keyword-argument
mismatch, caught by the catch-all handler) before `stats.total` is set,
any result is appended, or `processed` is incremented: the statistics
stay zero-valued throughout (third and fourth conjuncts), and the loop —
the only code that changes `processed` — is never entered. -/
theorem stats_total_equals_results (env : Env) :
    (runStateOf env).stats.total = (runStateOf env).results.length ∧
    (runStateOf env).stats.processed ≤ (runStateOf env).stats.total ∧
    (runStateOf env).stats.processed = 0 ∧
    (runStateOf env).results = [] := by
  have hinv := processSetup_inv env
  cases hps : processSetup env with
  | earlyReturn st =>
    rw [hps] at hinv
    simp only [SetupInv] at hinv
    have he : runStateOf env = st := by simp [runStateOf, hps]
    rw [he]
    exact ⟨by rw [hinv.1, hinv.2.2.2.2.2.1]; rfl, by rw [hinv.2.1]; omega,
      hinv.2.1, hinv.1⟩
  | raised ex st =>
    rw [hps] at hinv
    simp only [SetupInv] at hinv
    have he : runStateOf env = st := by simp [runStateOf, hps]
    rw [he]
    exact ⟨by rw [hinv.1, hinv.2.2.2.2.2.1]; rfl, by rw [hinv.2.1]; omega,
      hinv.2.1, hinv.1⟩
  | proceed st t ems =>
    exact absurd hps (processSetup_no_proceed env st t ems)

/-- C6 (counterexample): with a provider failure, `mark_as_read` returns
normally and `move_to` returns `False` — neither raises `OutlookError`,
contradicting the claim that all three mutators translate provider
failures into a raised error. -/
theorem mark_read_and_move_swallow_failures :
    mark_as_read true = Except.ok () ∧ move_to true = Except.ok false :=
  ⟨rfl, rfl⟩

/-- C6 (amended): only `set_category` translates a provider failure into a
raised `OutlookError` (which is fatal to the message: the processor turns
it into a FAILED result); `mark_as_read` swallows the failure and returns
normally, and `move_to` swallows it and returns `False`. -/
theorem mutator_failure_translation :
    set_category true =
      Except.error (.outlookError ("Impossible de définir la catégorie".data)) ∧
    set_category false = Except.ok () ∧
    (∀ b : Bool, mark_as_read b = Except.ok ()) ∧
    (∀ b : Bool, move_to b = Except.ok (!b)) ∧
    (∀ (e : Email) (category : Str) (p : Nat),
      e.pdfFails = false → e.setCategoryFails = true → category ≠ [] →
      (processSingleEmail e true category none p).1.status = .failed) := by
  refine ⟨rfl, rfl, fun _ => rfl, fun _ => rfl, ?_⟩
  intro e category p hpdf hsc hcat
  cases hA : e.hasAttachments <;>
    simp [processSingleEmail, processAfterAttachments, checkStop, hA, hpdf, hsc,
      hcat, set_category]

/-- Witness for the amended C6 theorem at a concrete email whose success
category application fails. -/
theorem mutator_failure_translation_witness :
    (processSingleEmail { eOK with setCategoryFails := true } true ("OK".data)
      none 0).1.status = .failed :=
  mutator_failure_translation.2.2.2.2 _ ("OK".data) 0 rfl rfl (by decide)

/-- C7: a scanned message matches iff its subject contains at least one
keyword as a case-insensitive substring; `filter_emails` keeps exactly the
mail items (Class 43, unread filter honoured, readable) whose subject
matches; and on subject "Invoice from ACME" the keywords "invoice" and
"ACME" match while "acme corp" does not. -/
theorem keyword_match_rule :
    (∀ (keywords : List Str) (subject : Str),
      subjectMatches keywords subject = true ↔
        ∃ kw ∈ keywords, lowerStr kw <:+: lowerStr subject) ∧
    (∀ (items : List MailItem) (keywords : List Str) (u : Bool) (it : MailItem),
      it ∈ filter_emails items keywords u ↔
        it ∈ items ∧ it.readFailure = false ∧ it.itemClass = 43 ∧
          (!u || it.unRead) = true ∧ subjectMatches keywords it.subject = true) ∧
    subjectMatches [("invoice".data)] ("Invoice from ACME".data) = true ∧
    subjectMatches [("ACME".data)] ("Invoice from ACME".data) = true ∧
    subjectMatches [("acme corp".data)] ("Invoice from ACME".data) = false := by
  refine ⟨?_, ?_, by decide, by decide, by decide⟩
  · intro keywords subject
    simp [subjectMatches, List.any_eq_true, containsSub_iff]
  · intro items keywords u it
    simp [filter_emails, List.mem_filter, Bool.and_eq_true, and_assoc,
      Bool.not_eq_true']

theorem replaceDotPdf_grows :
    ∀ (n : Nat) (s : Str), s.length ≤ n →
      s.length ≤
        (replaceDotPdf ['_', 'c', 'o', 'm', 'p', 'l', 'e', 't', '.', 'p', 'd', 'f'] s).length ∧
      (containsSub s ['.', 'p', 'd', 'f'] = true →
        s.length + 8 ≤
          (replaceDotPdf ['_', 'c', 'o', 'm', 'p', 'l', 'e', 't', '.', 'p', 'd', 'f'] s).length) := by
  intro n
  induction n with
  | zero =>
    intro s hs
    have hnil : s = [] := List.length_eq_zero.mp (Nat.le_zero.mp hs)
    subst hnil
    exact ⟨by simp [replaceDotPdf], fun hc => absurd hc (by decide)⟩
  | succ n ih =>
    intro s hs
    cases s with
    | nil => exact ⟨by simp [replaceDotPdf], fun hc => absurd hc (by decide)⟩
    | cons c rest =>
      rw [replaceDotPdf.eq_def]
      split
      · rename_i r heq
        have hr : r.length ≤ n := by
          rw [heq] at hs
          simp only [List.length_cons] at hs
          omega
        have hle := (ih r hr).1
        rw [heq]
        constructor
        · simp only [List.length_cons, List.length_append]
          omega
        · intro _
          simp only [List.length_cons, List.length_append]
          omega
      · rename_i h1 h2
        injection h2 with e1 e2
        subst e1
        subst e2
        have hr : rest.length ≤ n := by
          simp only [List.length_cons] at hs
          omega
        have hle := (ih rest hr).1
        constructor
        · simp only [List.length_cons]
          omega
        · intro hc
          simp only [containsSub, Bool.or_eq_true] at hc
          rcases hc with hpre | hsub
          · exfalso
            obtain ⟨t, ht⟩ := List.isPrefixOf_iff_prefix.mp hpre
            simp only [List.cons_append, List.nil_append] at ht
            injection ht with f1 f2
            exact h1 t f1.symm f2.symm
          · have := (ih rest hr).2 hsub
            simp only [List.length_cons]
            omega
      · rename_i heq
        exact absurd heq (by simp)

/-- C8 (counterexample): on the primary path `"a.pdf.pdf"`, the code's
`str.replace('.pdf', '_complet.pdf')` rewrites EVERY occurrence, giving
`"a_complet.pdf_complet.pdf"`, not the `"a.pdf_complet.pdf"` produced by
rewriting only the `.pdf` ending as the claim states. -/
theorem merged_path_not_ending_rewrite :
    (mergeWithAttachments true false ("a.pdf.pdf".data) []).path =
      ("a_complet.pdf_complet.pdf".data) ∧
    specMergedPath ("a.pdf.pdf".data) = ("a.pdf_complet.pdf".data) ∧
    (mergeWithAttachments true false ("a.pdf.pdf".data) []).path ≠
      specMergedPath ("a.pdf.pdf".data) := by
  exact ⟨by decide, by decide, by decide⟩

/-- C8 (amended): the merged artifact path is obtained by replacing every
occurrence of `".pdf"` in the primary path with `"_complet.pdf"` (for the
usual paths, whose only `".pdf"` is the ending, this is the ending
rewrite); if the final write fails, the original primary path is returned
unchanged instead of raising, and the primary artifact file is left
intact: the failure path removes no file (first conjunct; the only
removals the function ever performs are of the per-attachment conversion
temp files, third conjunct), and the final-write attempt targets only the
merged output path (fourth conjunct), which differs from every primary
path that contains `".pdf"` (fifth conjunct) — and every primary the
program produces ends in `".pdf"`. -/
theorem merge_write_failure_returns_primary :
    (∀ (hasPyPDF2 : Bool) (path : Str) (temps : List Str),
      (mergeWithAttachments hasPyPDF2 true path temps).path = path ∧
      (mergeWithAttachments hasPyPDF2 true path temps).removed = []) ∧
    (∀ (path : Str) (temps : List Str),
      (mergeWithAttachments true false path temps).path =
        replaceDotPdf ("_complet.pdf".data) path ∧
      (mergeWithAttachments true false path temps).removed = temps) ∧
    (∀ (h2 w : Bool) (path : Str) (temps : List Str),
      (mergeWithAttachments h2 w path temps).removed = temps ∨
      (mergeWithAttachments h2 w path temps).removed = []) ∧
    (∀ (h2 w : Bool) (path : Str) (temps : List Str) (t : Str),
      (mergeWithAttachments h2 w path temps).writeTarget = some t →
      t = replaceDotPdf ("_complet.pdf".data) path) ∧
    (∀ path : Str, containsSub path (".pdf".data) = true →
      replaceDotPdf ("_complet.pdf".data) path ≠ path) ∧
    (mergeWithAttachments true false ("out/Acme_20240101_invoice.pdf".data) []).path =
      ("out/Acme_20240101_invoice_complet.pdf".data) := by
  refine ⟨?_, fun path temps => ⟨rfl, rfl⟩, ?_, ?_, ?_, by decide⟩
  · intro hasPyPDF2 path temps
    cases hasPyPDF2 <;> simp [mergeWithAttachments]
  · intro h2 w path temps
    cases h2 <;> cases w <;> simp [mergeWithAttachments]
  · intro h2 w path temps t ht
    cases h2 <;> cases w <;> simp [mergeWithAttachments] at ht <;> exact ht.symm
  · intro path hc heq
    have hdata : ("_complet.pdf".data : Str) =
        ['_', 'c', 'o', 'm', 'p', 'l', 'e', 't', '.', 'p', 'd', 'f'] := by decide
    have hdot : (".pdf".data : Str) = ['.', 'p', 'd', 'f'] := by decide
    rw [hdot] at hc
    rw [hdata] at heq
    have hgrow := (replaceDotPdf_grows path.length path le_rfl).2 hc
    rw [heq] at hgrow
    omega

/-- Witness for the amended C8 theorem: on the primary `"a.pdf"` the
merged output path really differs from the primary, and the write-target
conjunct instantiates at a concrete failing write. -/
theorem merge_write_failure_returns_primary_witness :
    replaceDotPdf ("_complet.pdf".data) ("a.pdf".data) ≠ ("a.pdf".data) ∧
    ("a_complet.pdf".data : Str) = replaceDotPdf ("_complet.pdf".data) ("a.pdf".data) :=
  ⟨merge_write_failure_returns_primary.2.2.2.2.1 ("a.pdf".data) (by decide),
   merge_write_failure_returns_primary.2.2.2.1 true true ("a.pdf".data) []
     ("a_complet.pdf".data) (by decide)⟩

theorem afterCategory_move_last (e : Email) (t : Bool) (sa : Option Nat)
    (evs : List Event) (p : Nat) (hnm : Event.move e.subject ∉ evs) :
    Event.move e.subject ∈ (processAfterCategory e t sa evs p).2.1 →
    (processAfterCategory e t sa evs p).2.1 =
      (evs ++ [Event.markRead e.subject]) ++ [Event.move e.subject] := by
  intro hmem
  by_cases hstop : checkStop sa p = true
  · exfalso
    simp [processAfterCategory, hstop] at hmem
    exact hnm hmem
  · cases ht : t
    · exfalso
      simp [processAfterCategory, hstop, ht] at hmem
      exact hnm hmem
    · simp [processAfterCategory, hstop, ht]

theorem afterAttachments_move_last (e : Email) (t : Bool) (cat : Str)
    (sa : Option Nat) (evs : List Event) (p : Nat)
    (hnm : Event.move e.subject ∉ evs) (hcat : cat ≠ []) :
    Event.move e.subject ∈ (processAfterAttachments e t cat sa evs p).2.1 →
    ∃ pre,
      (processAfterAttachments e t cat sa evs p).2.1 = pre ++ [Event.move e.subject] ∧
      Event.setCategory e.subject cat ∈ pre ∧
      Event.markRead e.subject ∈ pre := by
  intro hmem
  by_cases hstop : checkStop sa p = true
  · exfalso
    simp [processAfterAttachments, hstop] at hmem
    exact hnm hmem
  · by_cases hpdf : e.pdfFails = true
    · exfalso
      simp [processAfterAttachments, hstop, hpdf] at hmem
      exact hnm hmem
    · by_cases hsc : e.setCategoryFails = true
      · exfalso
        simp [processAfterAttachments, hstop, hpdf, hcat, hsc, set_category] at hmem
        exact hnm hmem
      · have hnm2 : Event.move e.subject ∉
            (evs ++ [Event.renderPdf e.subject]) ++ [Event.setCategory e.subject cat] := by
          simp [hnm]
        have heq : (processAfterAttachments e t cat sa evs p).2.1 =
            (processAfterCategory e t sa
              ((evs ++ [Event.renderPdf e.subject]) ++ [Event.setCategory e.subject cat])
              (p + 1)).2.1 := by
          simp [processAfterAttachments, hstop, hpdf, hcat, hsc, set_category]
        rw [heq] at hmem ⊢
        rw [afterCategory_move_last e t sa _ (p + 1) hnm2 hmem]
        refine ⟨((evs ++ [Event.renderPdf e.subject]) ++
            [Event.setCategory e.subject cat]) ++ [Event.markRead e.subject],
          rfl, by simp, by simp⟩

/-- C1: for every run with a non-empty success category, if any
per-message work happens at all, then the event trace splits into a
setup part — containing the `ensureCategory` calls for both the success
category and the fixed error category, and no per-message event — followed
by the per-message part; moreover both tags are present in the mailbox's
category list for the rest of the run, so a set-category mutation can
never fail purely because its tag is missing.  `ensure_category_exists`
and the search step are modelled from the spec (neither is implemented
under `src/`; see `processSetupSpec`) — with the staged, always-raising
search no per-message work ever begins, so the property is stated for
the run with the spec-modelled search. -/
theorem ensure_categories_before_message_work (env : Env) (hcat : env.category ≠ []) :
    (∃ ev ∈ (runStateOfSpec env).events, isPerMessageEvent ev = true) →
    ∃ pre suf,
      (runStateOfSpec env).events = pre ++ suf ∧
      Event.ensureCategory env.category ∈ pre ∧
      Event.ensureCategory error_category ∈ pre ∧
      (∀ ev ∈ pre, isPerMessageEvent ev = false) ∧
      env.category ∈ (runStateOfSpec env).cats ∧
      error_category ∈ (runStateOfSpec env).cats := by
  intro hex
  have hinv := processSetupSpec_inv env
  cases hps : processSetupSpec env with
  | earlyReturn st =>
    rw [hps] at hinv
    simp only [SetupInv] at hinv
    have he : runStateOfSpec env = st := by simp [runStateOfSpec, hps]
    rw [he] at hex
    obtain ⟨ev, hev, htrue⟩ := hex
    rw [hinv.2.2.2.2.2.2 ev hev] at htrue
    cases htrue
  | raised ex st =>
    rw [hps] at hinv
    simp only [SetupInv] at hinv
    have he : runStateOfSpec env = st := by simp [runStateOfSpec, hps]
    rw [he] at hex
    obtain ⟨ev, hev, htrue⟩ := hex
    rw [hinv.2.2.2.2.2.2 ev hev] at htrue
    cases htrue
  | proceed st t ems =>
    rw [hps] at hinv
    simp only [SetupInv] at hinv
    have he : runStateOfSpec env = (processLoop t env.category env.stopAt ems st 0).1 := by
      simp [runStateOfSpec, hps]
    obtain ⟨_, _, _, _, _, _, hne, _, hcats, herrEv, herrCat⟩ := hinv
    obtain ⟨rs, evs, _, g2, g3, _, _, _, _, _⟩ :=
      processLoop_spec t env.category env.stopAt ems st 0
    rw [he, g2, g3]
    exact ⟨st.events, evs, rfl, (hcats hcat).1, herrEv, hne, (hcats hcat).2, herrCat⟩

/-- Witness for C1 on the concrete run `envCancel`, which reaches
per-message work. -/
theorem ensure_categories_before_message_work_witness :
    ∃ pre suf,
      (runStateOfSpec envCancel).events = pre ++ suf ∧
      Event.ensureCategory envCancel.category ∈ pre ∧
      Event.ensureCategory error_category ∈ pre ∧
      (∀ ev ∈ pre, isPerMessageEvent ev = false) ∧
      envCancel.category ∈ (runStateOfSpec envCancel).cats ∧
      error_category ∈ (runStateOfSpec envCancel).cats :=
  ensure_categories_before_message_work envCancel (by decide) (by decide)

/-- C5: in `_process_single_email` the folder move, when it happens at
all, is the very last event of the message's trace, strictly after the
success-category application and the mark-as-read — and a cancellation
detected at the pre-move checkpoint leaves the message SKIPPED with the
category and read mutations already attempted but no move (second
conjunct, on the concrete all-success email `eOK` with the stop flag
raised at the pre-move poll). -/
theorem move_last_after_category_and_read :
    (∀ (e : Email) (hasTarget : Bool) (category : Str) (stopAt : Option Nat) (p : Nat),
      category ≠ [] →
      Event.move e.subject ∈ (processSingleEmail e hasTarget category stopAt p).2.1 →
      ∃ pre,
        (processSingleEmail e hasTarget category stopAt p).2.1 =
          pre ++ [Event.move e.subject] ∧
        Event.setCategory e.subject category ∈ pre ∧
        Event.markRead e.subject ∈ pre) ∧
    ((processSingleEmail eOK true ("OK".data) (some 2) 0).1.status = .skipped ∧
     (processSingleEmail eOK true ("OK".data) (some 2) 0).2.1 =
       [Event.renderPdf ("s".data), Event.setCategory ("s".data) ("OK".data),
        Event.markRead ("s".data)]) := by
  refine ⟨?_, by decide⟩
  intro e hasTarget category stopAt p hcat hmem
  by_cases hstop : checkStop stopAt p = true
  · exfalso
    simp [processSingleEmail, hstop] at hmem
  · by_cases hA : e.hasAttachments = true
    · by_cases hstop1 : checkStop stopAt (p + 1) = true
      · exfalso
        simp [processSingleEmail, hstop, hA, hstop1] at hmem
      · have heq : (processSingleEmail e hasTarget category stopAt p).2.1 =
            (processAfterAttachments e hasTarget category stopAt
              [Event.saveAttachments e.subject] (p + 1 + 1)).2.1 := by
          simp [processSingleEmail, hstop, hA, hstop1]
        rw [heq] at hmem ⊢
        exact afterAttachments_move_last e hasTarget category stopAt _ _ (by simp) hcat hmem
    · have heq : (processSingleEmail e hasTarget category stopAt p).2.1 =
          (processAfterAttachments e hasTarget category stopAt [] (p + 1)).2.1 := by
        simp [processSingleEmail, hstop, hA]
      rw [heq] at hmem ⊢
      exact afterAttachments_move_last e hasTarget category stopAt [] (p + 1)
        (by simp) hcat hmem

/-- Witness for C5 on the all-success run of `eOK` with no cancellation:
the move event really occurs, and it closes the trace after the
category and mark-read events. -/
theorem move_last_after_category_and_read_witness :
    ∃ pre,
      (processSingleEmail eOK true ("OK".data) none 0).2.1 =
        pre ++ [Event.move eOK.subject] ∧
      Event.setCategory eOK.subject ("OK".data) ∈ pre ∧
      Event.markRead eOK.subject ∈ pre :=
  move_last_after_category_and_read.1 eOK true ("OK".data) none 0 (by decide) (by decide)

/-- C10: a provider failure during the folder move is swallowed inside
`move_to` (which returns `False` instead of raising), so a message whose
other steps succeed and that reaches the move step with a resolved target
folder is still recorded `SUCCESS`, the move having been attempted. -/
theorem failed_move_still_success (e : Email) (category : Str) (p : Nat)
    (hpdf : e.pdfFails = false) (hsc : e.setCategoryFails = false)
    (hmv : e.moveFails = true) :
    move_to e.moveFails = Except.ok false ∧
    (processSingleEmail e true category none p).1.status = .success ∧
    Event.move e.subject ∈ (processSingleEmail e true category none p).2.1 := by
  refine ⟨by rw [hmv]; rfl, ?_, ?_⟩ <;>
  · cases hA : e.hasAttachments <;>
      by_cases hcat : category = [] <;>
      simp [processSingleEmail, processAfterAttachments, processAfterCategory,
        checkStop, hA, hpdf, hsc, hcat, set_category]

/-- Witness for C10: the concrete email `eOK` with a failing move ends
`SUCCESS` with the move attempted. -/
theorem failed_move_still_success_witness :
    move_to ({ eOK with moveFails := true } : Email).moveFails = Except.ok false ∧
    (processSingleEmail { eOK with moveFails := true } true ("OK".data)
      none 0).1.status = .success ∧
    Event.move ({ eOK with moveFails := true } : Email).subject ∈
      (processSingleEmail { eOK with moveFails := true } true ("OK".data) none 0).2.1 :=
  failed_move_still_success _ ("OK".data) 0 rfl rfl rfl

/-! ## Sanitizer idempotence (C9) -/

theorem mem_replaceChar {c : Char} (s : Str) (old : Char) (new : Str)
    (h : c ∈ replaceChar s old new) : c ∈ new ∨ (c ∈ s ∧ c ≠ old) := by
  induction s with
  | nil => simp [replaceChar] at h
  | cons a rest ih =>
    simp only [replaceChar, List.mem_append] at h
    rcases h with h | h
    · by_cases ha : a = old
      · rw [if_pos ha] at h
        exact Or.inl h
      · rw [if_neg ha] at h
        simp at h
        subst h
        exact Or.inr ⟨List.mem_cons_self _ _, ha⟩
    · rcases ih h with h' | ⟨h1, h2⟩
      · exact Or.inl h'
      · exact Or.inr ⟨List.mem_cons_of_mem a h1, h2⟩

theorem replaceChar_not_mem (s : Str) (old : Char) (new : Str) (h : old ∉ s) :
    replaceChar s old new = s := by
  induction s with
  | nil => rfl
  | cons a rest ih =>
    have ha : a ≠ old := fun he => h (he ▸ List.mem_cons_self a rest)
    have hr : old ∉ rest := fun hm => h (List.mem_cons_of_mem a hm)
    simp [replaceChar, ha, ih hr]

theorem mem_foldl_replace (chs : List Char) :
    ∀ (s : Str) (c : Char),
      c ∈ chs.foldl (fun acc ch => replaceChar acc ch ['_']) s →
      c = '_' ∨ (c ∈ s ∧ c ∉ chs) := by
  induction chs with
  | nil =>
    intro s c h
    exact Or.inr ⟨h, by simp⟩
  | cons ch chs' ih =>
    intro s c h
    simp only [List.foldl_cons] at h
    rcases ih (replaceChar s ch ['_']) c h with h' | ⟨h1, h2⟩
    · exact Or.inl h'
    · rcases mem_replaceChar s ch ['_'] h1 with h3 | ⟨h4, h5⟩
      · simp at h3
        exact Or.inl h3
      · exact Or.inr ⟨h4, by simp [h5, h2]⟩

theorem foldl_replace_not_mem (chs : List Char) (repl : Str) :
    ∀ s : Str, (∀ ch ∈ chs, ch ∉ s) →
      chs.foldl (fun acc ch => replaceChar acc ch repl) s = s := by
  induction chs with
  | nil => intro s _; rfl
  | cons ch chs' ih =>
    intro s h
    simp only [List.foldl_cons]
    rw [replaceChar_not_mem s ch repl (h ch (List.mem_cons_self ch chs'))]
    exact ih s fun c hc => h c (List.mem_cons_of_mem ch hc)

theorem mem_removeCc {c : Char} (s : Str) (h : c ∈ removeCc s) :
    c ∈ s ∧ isCc c = false := by
  have := List.mem_filter.mp h
  simpa using this

theorem removeCc_eq_self (s : Str) (h : ∀ c ∈ s, isCc c = false) :
    removeCc s = s := by
  apply List.filter_eq_self.mpr
  intro a ha
  simp [h a ha]

theorem mem_collapseAux {c : Char} :
    ∀ (s : Str) (b : Bool), c ∈ collapseAux s b → c = ' ' ∨ c ∈ s := by
  intro s
  induction s with
  | nil => intro b h; simp [collapseAux] at h
  | cons a rest ih =>
    intro b h
    by_cases hws : isPySpace a = true
    · cases b with
      | true =>
        simp only [collapseAux, hws, if_true] at h
        rcases ih true h with h' | h'
        · exact Or.inl h'
        · exact Or.inr (List.mem_cons_of_mem a h')
      | false =>
        simp only [collapseAux, hws, if_true] at h
        rcases List.mem_cons.mp h with h' | h'
        · exact Or.inl h'
        · rcases ih true h' with h'' | h''
          · exact Or.inl h''
          · exact Or.inr (List.mem_cons_of_mem a h'')
    · simp only [collapseAux, hws, if_false] at h
      rcases List.mem_cons.mp h with h' | h'
      · exact Or.inr (h' ▸ List.mem_cons_self a rest)
      · rcases ih false h' with h'' | h''
        · exact Or.inl h''
        · exact Or.inr (List.mem_cons_of_mem a h'')

theorem collapseAux_ws_space {c : Char} :
    ∀ (s : Str) (b : Bool), c ∈ collapseAux s b → isPySpace c = true → c = ' ' := by
  intro s
  induction s with
  | nil => intro b h; simp [collapseAux] at h
  | cons a rest ih =>
    intro b h hws
    by_cases ha : isPySpace a = true
    · cases b with
      | true =>
        simp only [collapseAux, ha, if_true] at h
        exact ih true h hws
      | false =>
        simp only [collapseAux, ha, if_true] at h
        rcases List.mem_cons.mp h with h' | h'
        · exact h'
        · exact ih true h' hws
    · simp only [collapseAux, ha, if_false] at h
      rcases List.mem_cons.mp h with h' | h'
      · exact absurd (h' ▸ hws) (by simp [ha])
      · exact ih false h' hws

theorem collapseAux_chain :
    ∀ (s : Str) (b : Bool),
      List.Chain' NAdjWS (collapseAux s b) ∧
      (b = true → ∀ c ∈ (collapseAux s b).head?, isPySpace c = false) := by
  intro s
  induction s with
  | nil =>
    intro b
    exact ⟨List.chain'_nil, fun _ c hc => by simp [collapseAux] at hc⟩
  | cons a rest ih =>
    intro b
    by_cases ha : isPySpace a = true
    · cases b with
      | true =>
        have hstep : collapseAux (a :: rest) true = collapseAux rest true := by
          simp [collapseAux, ha]
        rw [hstep]
        exact ih true
      | false =>
        have hstep : collapseAux (a :: rest) false = ' ' :: collapseAux rest true := by
          simp [collapseAux, ha]
        rw [hstep]
        constructor
        · refine List.Chain'.cons' (ih true).1 ?_
          intro y hy
          have hy' := (ih true).2 rfl y hy
          simp [NAdjWS, hy']
        · intro hfalse
          cases hfalse
    · have ha' : isPySpace a = false := by simpa using ha
      have hstep : collapseAux (a :: rest) b = a :: collapseAux rest false := by
        simp [collapseAux, ha']
      rw [hstep]
      constructor
      · refine List.Chain'.cons' (ih false).1 ?_
        intro y _
        simp [NAdjWS, ha']
      · intro _ c hc
        simp only [List.head?_cons, Option.mem_def, Option.some.injEq] at hc
        exact hc ▸ ha'

theorem collapseAux_eq_self :
    ∀ s : Str, (∀ c ∈ s, isPySpace c = true → c = ' ') → List.Chain' NAdjWS s →
      collapseAux s false = s ∧
      ((∀ c ∈ s.head?, isPySpace c = false) → collapseAux s true = s) := by
  intro s
  induction s with
  | nil => intro _ _; exact ⟨rfl, fun _ => rfl⟩
  | cons a rest ih =>
    intro hmem hch
    have hmem' : ∀ c ∈ rest, isPySpace c = true → c = ' ' :=
      fun c hc => hmem c (List.mem_cons_of_mem a hc)
    have hch' : List.Chain' NAdjWS rest := hch.tail
    have IH := ih hmem' hch'
    by_cases ha : isPySpace a = true
    · have ha' : a = ' ' := hmem a (List.mem_cons_self a rest) ha
      have hresthead : ∀ c ∈ rest.head?, isPySpace c = false := by
        intro y hy
        have hrel := List.Chain'.rel_head? hch hy
        by_contra hcon
        exact hrel ⟨ha, by simpa using hcon⟩
      constructor
      · have hstep : collapseAux (a :: rest) false = ' ' :: collapseAux rest true := by
          simp [collapseAux, ha]
        rw [hstep, IH.2 hresthead, ha']
      · intro hhead
        exact absurd (hhead a (by simp)) (by simp [ha])
    · have ha2 : isPySpace a = false := by simpa using ha
      have hstep : ∀ b, collapseAux (a :: rest) b = a :: collapseAux rest false := by
        intro b; simp [collapseAux, ha2]
      constructor
      · rw [hstep false, IH.1]
      · intro _
        rw [hstep true, IH.1]

theorem dropWhile_idem (q : Char → Bool) (l : Str) :
    List.dropWhile q (List.dropWhile q l) = List.dropWhile q l := by
  induction l with
  | nil => rfl
  | cons a t ih =>
    by_cases h : q a = true
    · simp [List.dropWhile_cons, h, ih]
    · simp [List.dropWhile_cons, h]

theorem lstrip_idem (s : Str) : lstrip (lstrip s) = lstrip s :=
  dropWhile_idem isDotSpace s

theorem rstrip_idem (s : Str) : rstrip (rstrip s) = rstrip s := by
  simp [rstrip, List.reverse_reverse, dropWhile_idem]

theorem rstrip_pre (s : Str) : rstrip s <+: s := by
  have h1 : (rstrip s).reverse <:+ s.reverse := by
    rw [rstrip, List.reverse_reverse]
    exact List.dropWhile_suffix isDotSpace
  exact List.reverse_suffix.mp h1

theorem lstrip_suf (s : Str) : lstrip s <:+ s :=
  List.dropWhile_suffix isDotSpace

theorem stripDotSpace_le (s : Str) : stripDotSpace s <:+: s :=
  List.IsInfix.trans (rstrip_pre (lstrip s)).isInfix (lstrip_suf s).isInfix

theorem lstrip_eq_self_of_head (s : Str)
    (h : ∀ c ∈ s.head?, isDotSpace c = false) : lstrip s = s := by
  cases s with
  | nil => rfl
  | cons a t =>
    have := h a (by simp)
    simp [lstrip, List.dropWhile_cons, this]

theorem head_of_lstrip (s : Str) :
    ∀ c ∈ (lstrip s).head?, isDotSpace c = false := by
  induction s with
  | nil => intro c hc; simp [lstrip] at hc
  | cons a t ih =>
    intro c hc
    by_cases h : isDotSpace a = true
    · rw [show lstrip (a :: t) = lstrip t by simp [lstrip, List.dropWhile_cons, h]] at hc
      exact ih c hc
    · rw [show lstrip (a :: t) = a :: t by simp [lstrip, List.dropWhile_cons, h]] at hc
      simp only [List.head?_cons, Option.mem_def, Option.some.injEq] at hc
      subst hc
      simpa using h

theorem head_of_pre {l₁ l₂ : Str} (h : l₁ <+: l₂) :
    ∀ c ∈ l₁.head?, c ∈ l₂.head? := by
  rcases h with ⟨t, rfl⟩
  cases l₁ <;> simp

theorem lstrip_rstrip_lstrip (s : Str) :
    lstrip (rstrip (lstrip s)) = rstrip (lstrip s) := by
  apply lstrip_eq_self_of_head
  intro c hc
  exact head_of_lstrip s c (head_of_pre (rstrip_pre (lstrip s)) c hc)

theorem stripDotSpace_idem (s : Str) :
    stripDotSpace (stripDotSpace s) = stripDotSpace s := by
  unfold stripDotSpace
  rw [lstrip_rstrip_lstrip, rstrip_idem]

theorem sanitized_fixed (s : Str)
    (hforb : ∀ c ∈ s, c ∉ FORBIDDEN_CHARS)
    (hncc : ∀ c ∈ s, isCc c = false)
    (hws : ∀ c ∈ s, isPySpace c = true → c = ' ')
    (hch : List.Chain' NAdjWS s)
    (hl : lstrip s = s) (hr : rstrip s = s) :
    sanitize_text s ['_'] = s := by
  by_cases hnil : s = []
  · simp [sanitize_text, hnil]
  · have e1 : FORBIDDEN_CHARS.foldl (fun acc ch => replaceChar acc ch ['_']) s = s :=
      foldl_replace_not_mem FORBIDDEN_CHARS ['_'] s
        (fun ch hc hmem => hforb ch hmem hc)
    have e2 : removeCc s = s := removeCc_eq_self s hncc
    have e3 : collapseWS s = s := (collapseAux_eq_self s hws hch).1
    rw [sanitize_text, if_neg hnil, e1, e2, e3, stripDotSpace, hl, hr]

theorem sanitize_props (x : Str) :
    (∀ c ∈ sanitize_text x ['_'], c ∉ FORBIDDEN_CHARS) ∧
    (∀ c ∈ sanitize_text x ['_'], isCc c = false) ∧
    (∀ c ∈ sanitize_text x ['_'], isPySpace c = true → c = ' ') ∧
    List.Chain' NAdjWS (sanitize_text x ['_']) ∧
    lstrip (sanitize_text x ['_']) = sanitize_text x ['_'] ∧
    rstrip (sanitize_text x ['_']) = sanitize_text x ['_'] := by
  by_cases hx : x = []
  · refine ⟨?_, ?_, ?_, ?_, ?_, ?_⟩ <;> simp [sanitize_text, hx, lstrip, rstrip]
  · have hs : sanitize_text x ['_'] =
        stripDotSpace (collapseWS (removeCc
          (FORBIDDEN_CHARS.foldl (fun acc ch => replaceChar acc ch ['_']) x))) := by
      rw [sanitize_text, if_neg hx]
    rw [hs]
    have hinf := stripDotSpace_le (collapseWS (removeCc
      (FORBIDDEN_CHARS.foldl (fun acc ch => replaceChar acc ch ['_']) x)))
    refine ⟨?_, ?_, ?_, ?_, ?_, ?_⟩
    · intro c hc hcf
      rcases mem_collapseAux _ false (hinf.subset hc) with h' | h'
      · subst h'
        simp [FORBIDDEN_CHARS] at hcf
      · have h'' := mem_removeCc _ h'
        rcases mem_foldl_replace FORBIDDEN_CHARS x c h''.1 with h3 | ⟨_, h5⟩
        · subst h3
          simp [FORBIDDEN_CHARS] at hcf
        · exact h5 hcf
    · intro c hc
      rcases mem_collapseAux _ false (hinf.subset hc) with h' | h'
      · subst h'
        decide
      · exact (mem_removeCc _ h').2
    · intro c hc hws
      exact collapseAux_ws_space _ false (hinf.subset hc) hws
    · exact List.Chain'.infix (collapseAux_chain _ false).1 hinf
    · exact lstrip_rstrip_lstrip _
    · exact rstrip_idem _

/-- C9: the filesystem sanitizer is idempotent — applying `sanitize_text`
(with its default replacement `"_"`) twice gives the same result as
applying it once, for every input string. -/
theorem sanitize_text_idempotent (x : Str) :
    sanitize_text (sanitize_text x ['_']) ['_'] = sanitize_text x ['_'] := by
  obtain ⟨h1, h2, h3, h4, h5, h6⟩ := sanitize_props x
  exact sanitized_fixed _ h1 h2 h3 h4 h5 h6

end EmailAutomation
